import Mathlib

/-!
Shallow embedding of the TradeTide position-lifecycle, capital-management and
metrics code, together with proofs settling the specification claims.

Markets are modelled as lists of bars indexed by position (the pandas
DatetimeIndex is strictly increasing, so integer indices are order-isomorphic
to the timestamps used by the source).  Prices are rationals.
-/

set_option autoImplicit false
set_option linter.unusedVariables false

attribute [local semireducible] Rat.mul Rat.inv Rat.add Rat.sub

namespace TradeTide

/-- One market bar: the columns of the market DataFrame that the position
engine reads (`low`, `high`, `close`, `spread`). -/
structure Bar where
  low : ℚ
  high : ℚ
  close : ℚ
  spread : ℚ
deriving Repr, DecidableEq

/-- Position side, the `position_type` string of the source restricted to its
two meaningful values (`Long` / `Short` subclasses in position.py). -/
inductive Side where
  | long : Side
  | short : Side
deriving Repr, DecidableEq

/-- A position as constructed by the capital manager: start bar, side, entry
price, size and the two threshold prices (capital_managment.py lines 120-128). -/
structure Position where
  side : Side
  startIdx : ℕ
  entry_price : ℚ
  size : ℚ
  stop_loss_price : ℚ
  take_profit_price : ℚ
deriving Repr, DecidableEq

/-- Close price at bar `i` (`market.close[i]`); 0 when out of range, which the
source never reads. -/
def closeAt (m : List Bar) (i : ℕ) : ℚ :=
  match m[i]? with
  | some b => b.close
  | none => 0

/-- Whether the bar at index `i` satisfies `pred` (out-of-range bars do not). -/
def predAt (pred : Bar → Bool) (m : List Bar) (i : ℕ) : Bool :=
  match m[i]? with
  | some b => pred b
  | none => false

/-- Scan a list for the first element satisfying `pred`, reporting its index,
counting from `n` (helper for `first_valid_index` over `market.loc[start:]`). -/
def firstFrom (pred : Bar → Bool) : List Bar → ℕ → Option ℕ
  | [], _ => none
  | b :: rest, n => if pred b then some n else firstFrom pred rest (n + 1)

/-- Index of the first bar at or after `start` satisfying `pred`:
`market_after_start[condition].first_valid_index()` in the source, where
`market_after_start = market.loc[start:]`. -/
def firstIdxFrom (pred : Bar → Bool) (m : List Bar) (start : ℕ) : Option ℕ :=
  firstFrom pred (m.drop start) start

/-- Stop-loss breach condition: `low <= stop_loss_price` for a long
(position.py line 280), `high >= stop_loss_price` for a short (line 338). -/
def stopCondition (side : Side) (slp : ℚ) (b : Bar) : Bool :=
  match side with
  | .long => decide (b.low ≤ slp)
  | .short => decide (b.high ≥ slp)

/-- Take-profit breach condition: `high >= take_profit_price` for a long
(position.py line 281), `low <= take_profit_price` for a short (line 339). -/
def profitCondition (side : Side) (tpp : ℚ) (b : Bar) : Bool :=
  match side with
  | .long => decide (b.high ≥ tpp)
  | .short => decide (b.low ≤ tpp)

/-- `self.stop_loss_trigger` of `compute_triggers`: first bar at or after the
start where the stop-loss condition holds. -/
def stop_loss_trigger (p : Position) (m : List Bar) : Option ℕ :=
  firstIdxFrom (stopCondition p.side p.stop_loss_price) m p.startIdx

/-- `self.take_profit_trigger` of `compute_triggers`: first bar at or after the
start where the take-profit condition holds. -/
def take_profit_trigger (p : Position) (m : List Bar) : Option ℕ :=
  firstIdxFrom (profitCondition p.side p.take_profit_price) m p.startIdx

/-- `min(filter(pandas.notna, [stop_loss_trigger, take_profit_trigger,
market.index[-1]]))` of position.py lines 286 / 344. -/
def minDefined (slt tpt : Option ℕ) (lastIdx : ℕ) : ℕ :=
  match slt, tpt with
  | none, none => lastIdx
  | some a, none => min a lastIdx
  | none, some b => min b lastIdx
  | some a, some b => min (min a b) lastIdx

/-- `self.stop_date`: bar index at which the position stops. -/
def stop_date (p : Position) (m : List Bar) : ℕ :=
  minDefined (stop_loss_trigger p m) (take_profit_trigger p m) (m.length - 1)

/-- Timestamp comparison `a < b` between two trigger values; in the source it
is only evaluated when both triggers are set (guarded by short-circuit
`or`), so the value on a missing operand is irrelevant. -/
def optLt (a b : Option ℕ) : Bool :=
  match a, b with
  | some x, some y => decide (x < y)
  | _, _ => false

/-- Direct translation of `BasePosition.compute_is_win` (position.py lines
136-157): three sequential non-exclusive `if` statements writing `self.is_win`,
starting from the attribute being unset (`none`).  When both triggers fall on
the same bar none of the guards holds and `is_win` is left unset. -/
def compute_is_win (slt tpt : Option ℕ) : Option ℤ :=
  let stop_loss_triggered := slt.isSome
  let take_profit_triggered := tpt.isSome
  let w0 : Option ℤ := none
  let w1 := if !stop_loss_triggered && !take_profit_triggered then some 0 else w0
  let w2 := if stop_loss_triggered && (!take_profit_triggered || optLt slt tpt)
    then some (-1) else w1
  let w3 := if take_profit_triggered && (!stop_loss_triggered || optLt tpt slt)
    then some 1 else w2
  w3

/-- `self.is_win` after `compute_triggers` and `compute_is_win` have run. -/
def is_win (p : Position) (m : List Bar) : Option ℤ :=
  compute_is_win (stop_loss_trigger p m) (take_profit_trigger p m)

/-- A position after `initialize()` has resolved it: the stored `stop_date`
and `is_win` attributes alongside the constructor data. -/
structure ResolvedPosition where
  pos : Position
  stopIdx : ℕ
  isWin : ℤ
deriving Repr, DecidableEq

/-- Run trigger resolution; `none` models the source leaving `self.is_win`
unset (so that any later read of it fails), which happens exactly when both
thresholds are first breached on the same bar. -/
def resolve (p : Position) (m : List Bar) : Option ResolvedPosition :=
  match is_win p m with
  | none => none
  | some w => some ⟨p, stop_date p m, w⟩

/-- Direct translation of `Long.compute_exit_info` / `Short.compute_exit_info`
(position.py lines 288-296 and 321-329): `numpy.nan` (here `none`) when
`stop_date` is `None`, otherwise a Python-truthiness test on `is_win`
(an `int` in {-1, 0, 1}, truthy iff nonzero). -/
def compute_exit_info (side : Side) (stopDate : Option ℕ) (isWin : ℤ)
    (slp tpp : ℚ) : Option ℚ :=
  match stopDate with
  | none => none
  | some _ =>
    match side with
    | .long => some (if isWin ≠ 0 then tpp else slp)
    | .short => some (if isWin ≠ 0 then slp else tpp)

/-- Exit price of a resolved position (whose `stop_date` is always set). -/
def exitPrice (rp : ResolvedPosition) : ℚ :=
  match rp.pos.side with
  | .long => if rp.isWin ≠ 0 then rp.pos.take_profit_price else rp.pos.stop_loss_price
  | .short => if rp.isWin ≠ 0 then rp.pos.stop_loss_price else rp.pos.take_profit_price

/-! ### Ledger arrays and interval updates

pandas label-slice additions (`df.loc[a:b, col] += x`) become pointwise
additions of an index-dependent amount over a flat list. -/

/-- Add `f i` to the element at absolute index `i`, the counter starting at
`n` for the head of the list. -/
def addSeriesAux {α : Type} [Add α] (f : ℕ → α) : ℕ → List α → List α
  | _, [] => []
  | n, c :: rest => (c + f n) :: addSeriesAux f (n + 1) rest

/-- Add `f i` to the element at index `i` of the list. -/
def addSeries {α : Type} [Add α] (f : ℕ → α) (l : List α) : List α :=
  addSeriesAux f 0 l

/-- The portfolio DataFrame columns mutated by
`BasePosition.update_portfolio_dataframe`. -/
structure Ledger where
  units : List ℚ
  holdings : List ℚ
  long_positions : List ℚ
  short_positions : List ℚ
  cash : List ℚ
deriving Repr, DecidableEq

/-- `BasePosition.update_cash` (position.py lines 118-134):
`dataframe.loc[start_date:, cash] -= entry_price * size` and
`dataframe.iloc[stop_index + 1:, cash] += exit_price * size`. -/
def update_cash (rp : ResolvedPosition) (cash : List ℚ) : List ℚ :=
  let exit_price := exitPrice rp
  let entry_spend := rp.pos.entry_price * rp.pos.size
  let exit_get := exit_price * rp.pos.size
  addSeries (fun i => if rp.stopIdx + 1 ≤ i then exit_get else 0)
    (addSeries (fun i => if rp.pos.startIdx ≤ i then -entry_spend else 0) cash)

/-- `BasePosition.add_units_to_dataframe`:
`dataframe.loc[start_date:stop_date, units] += size`. -/
def add_units_to_dataframe (rp : ResolvedPosition) (units : List ℚ) : List ℚ :=
  addSeries (fun i => if rp.pos.startIdx ≤ i ∧ i ≤ rp.stopIdx then rp.pos.size else 0) units

/-- `BasePosition.add_holding_to_dataframe`:
`dataframe.loc[start_date:stop_date, holdings] += size * market.close`
(the addend series aligns with the ledger index). -/
def add_holding_to_dataframe (rp : ResolvedPosition) (m : List Bar)
    (holdings : List ℚ) : List ℚ :=
  addSeries
    (fun i => if rp.pos.startIdx ≤ i ∧ i ≤ rp.stopIdx then rp.pos.size * closeAt m i else 0)
    holdings

/-- `Long.add_position_to_dataframe` / `Short.add_position_to_dataframe`:
increment the side counter over the holding period. -/
def add_position_to_dataframe (rp : ResolvedPosition) (counter : List ℚ) : List ℚ :=
  addSeries (fun i => if rp.pos.startIdx ≤ i ∧ i ≤ rp.stopIdx then 1 else 0) counter

/-- `BasePosition.update_portfolio_dataframe` (position.py lines 78-89): the
contribution of one resolved position to the portfolio ledger. -/
def update_portfolio_dataframe (rp : ResolvedPosition) (m : List Bar) (L : Ledger) : Ledger :=
  { units := add_units_to_dataframe rp L.units
    holdings := add_holding_to_dataframe rp m L.holdings
    long_positions :=
      if rp.pos.side = Side.long then add_position_to_dataframe rp L.long_positions
      else L.long_positions
    short_positions :=
      if rp.pos.side = Side.short then add_position_to_dataframe rp L.short_positions
      else L.short_positions
    cash := update_cash rp L.cash }

/-- `BasePosition.add_total_position_to_dataframe` (position.py lines 91-98):
`dataframe.loc[start_date:stop_date, open_positions] += 1`. -/
def add_total_position_to_dataframe (rp : ResolvedPosition) (openPos : List ℕ) : List ℕ :=
  addSeries (fun i => if rp.pos.startIdx ≤ i ∧ i ≤ rp.stopIdx then 1 else 0) openPos

/-! ### Exit levels (risk_management.py) -/

/-- Direct translation of `DirectLossProfitManagement.get_loss_profit_price`
(risk_management.py lines 55-69).  The same `adjustment` is used for both the
stop-loss and the take-profit price. -/
def get_loss_profit_price (position_type : Side) (entry_price stop_loss take_profit : ℚ) :
    ℚ × ℚ :=
  let adjustment := entry_price * (if position_type = Side.long then stop_loss else take_profit)
  let stop_loss_price :=
    if position_type = Side.long then entry_price - adjustment else entry_price + adjustment
  let take_profit_price :=
    if position_type = Side.long then entry_price + adjustment else entry_price - adjustment
  (stop_loss_price, take_profit_price)

/-! ### Capital management (capital_managment.py) -/

/-- Configuration shared by the capital-management variants; the direct
loss-profit levels are configured by their two fractions.  The claims under
verification concern a finite `limit_of_positions`, so the `numpy.inf`
default is outside this model. -/
structure ManageParams where
  spread : ℚ
  max_cap_per_trade : ℚ
  limit_of_positions : ℕ
  initial_capital : ℚ
  stop_loss : ℚ
  take_profit : ℚ
deriving Repr, DecidableEq

/-- The `time_info` DataFrame owned by `LimitedCapital.manage`: per-bar
running cash and open-position count. -/
structure TimeInfo where
  cash : List ℚ
  open_positions : List ℕ
deriving Repr, DecidableEq

/-- One iteration of the `LimitedCapital.manage` loop (capital_managment.py
lines 96-133) at bar `date`.  The state is `none` once an iteration has
raised (trigger resolution leaving `is_win` unset). -/
def manageStep (P : ManageParams) (market : List Bar) (signal : List ℤ)
    (st : Option (TimeInfo × List ResolvedPosition)) (date : ℕ) :
    Option (TimeInfo × List ResolvedPosition) :=
  match st with
  | none => none
  | some (ti, plist) =>
    let cash_at_date : ℚ := ti.cash.getD date 0
    let open_position_at_date : ℕ := ti.open_positions.getD date 0
    let signal_d : ℤ := signal.getD date 0
    if signal_d = 0 ∨ open_position_at_date ≥ P.limit_of_positions then some (ti, plist)
    else
      let entry_price := closeAt market date + P.spread
      let units := min ((P.max_cap_per_trade - P.spread) / entry_price)
        ((cash_at_date - P.spread) / entry_price)
      if units < 1 then some (ti, plist)
      else
        let position_cost := units * entry_price + P.spread
        if cash_at_date < position_cost then some (ti, plist)
        else
          let position_type := if signal_d > 0 then Side.long else Side.short
          let levels := get_loss_profit_price position_type entry_price P.stop_loss P.take_profit
          let p : Position :=
            ⟨position_type, date, entry_price, units, levels.1, levels.2⟩
          match resolve p market with
          | none => none
          | some rp =>
            let ti1 : TimeInfo := ⟨update_cash rp ti.cash, ti.open_positions⟩
            let ti2 : TimeInfo := ⟨ti1.cash, add_total_position_to_dataframe rp ti1.open_positions⟩
            some (ti2, plist ++ [rp])

/-- `LimitedCapital.manage`: initialize the per-bar cash to the initial
capital and the open-position count to zero, then walk the bars in
chronological order. -/
def manage (P : ManageParams) (market : List Bar) (signal : List ℤ) :
    Option (TimeInfo × List ResolvedPosition) :=
  (List.range market.length).foldl (manageStep P market signal)
    (some (⟨List.replicate market.length P.initial_capital,
            List.replicate market.length 0⟩, []))

/-- Body of the `UnlimitedCapital.manage` loop (capital_managment.py lines
173-204) for one date carrying signal value `signal_d`: entry price, floored
size, and position construction.  (The iteration set, the edge-triggered
signal dates, does not affect the per-position quantities at stake here.) -/
def unlimitedOpen (P : ManageParams) (market : List Bar) (signal_d : ℤ) (date : ℕ) :
    Option Position :=
  if signal_d ≠ 0 then
    let entry_price := closeAt market date + P.spread
    let units : ℤ := ⌊(P.max_cap_per_trade - P.spread) / entry_price⌋
    if (units : ℚ) < 1 then none
    else
      let position_type := if signal_d > 0 then Side.long else Side.short
      let levels := get_loss_profit_price position_type entry_price P.stop_loss P.take_profit
      some ⟨position_type, date, entry_price, (units : ℚ), levels.1, levels.2⟩
  else none

/-! ### Metrics (backtester.py, calculate_performance_metrics) -/

/-- Mean of the valid (non-NaN) entries of a returns series. -/
def seriesMean (l : List ℚ) : ℚ :=
  l.sum / l.length

/-- Sample variance with one delta degree of freedom, the square of the
pandas `std()`; only evaluated for series of length at least two. -/
def seriesVar (l : List ℚ) : ℚ :=
  (l.map (fun x => (x - seriesMean l) ^ 2)).sum / ((l.length : ℚ) - 1)

/-- Value class of the floating-point Sharpe computation.  The `val` case
carries the mean and the variance symbolically (the actual float is
`mean / sqrt variance * sqrt 252`, which leaves the rationals); the claims
under verification only concern the zero-variance and short-series cases,
whose IEEE semantics are captured exactly. -/
inductive SharpeOutcome where
  | nan : SharpeOutcome
  | posInf : SharpeOutcome
  | negInf : SharpeOutcome
  | val : ℚ → ℚ → SharpeOutcome
deriving Repr, DecidableEq

/-- `daily_returns.mean() / daily_returns.std() * numpy.sqrt(252)`
(backtester.py line 299), with no guard: pandas `std(ddof=1)` is NaN for
fewer than two valid entries, and IEEE division of the mean by a zero
standard deviation yields NaN when the mean is zero and a signed infinity
otherwise (the subsequent multiplication by the positive `sqrt(252)`
preserves NaN and the sign of the infinity). -/
def sharpe_ratio (returns : List ℚ) : SharpeOutcome :=
  if returns.length ≤ 1 then SharpeOutcome.nan
  else
    let m := seriesMean returns
    let v := seriesVar returns
    if v = 0 then
      if m = 0 then SharpeOutcome.nan
      else if m > 0 then SharpeOutcome.posInf
      else SharpeOutcome.negInf
    else SharpeOutcome.val m v

/-- Value class of the win-loss ratio. -/
inductive RatioOutcome where
  | posInf : RatioOutcome
  | val : ℚ → RatioOutcome
deriving Repr, DecidableEq

/-- `wins / losses if losses != 0 else numpy.inf` (backtester.py lines
302-304) over the per-bar returns series. -/
def win_loss_ratio (returns : List ℚ) : RatioOutcome :=
  let wins := (returns.filter (fun r => decide (0 < r))).length
  let losses := (returns.filter (fun r => decide (r < 0))).length
  if losses ≠ 0 then RatioOutcome.val ((wins : ℚ) / (losses : ℚ))
  else RatioOutcome.posInf

/-! ### Specification-side predicates -/

/-- Specification of a first-breach index: `i` is at or after `start`, in
range, satisfies `pred`, and no earlier in-range bar at or after `start`
does. -/
def isFirstIdxFrom (pred : Bar → Bool) (m : List Bar) (start i : ℕ) : Prop :=
  start ≤ i ∧ i < m.length ∧ predAt pred m i = true ∧
    ∀ j, j < i → start ≤ j → predAt pred m j = false

instance (pred : Bar → Bool) (m : List Bar) (start i : ℕ) :
    Decidable (isFirstIdxFrom pred m start i) := by
  unfold isFirstIdxFrom
  infer_instance

/-- The three candidate stop indices named by the specification: the first
stop-loss breach, the first take-profit breach, and the last bar. -/
def isStopCandidate (p : Position) (m : List Bar) (i : ℕ) : Prop :=
  isFirstIdxFrom (stopCondition p.side p.stop_loss_price) m p.startIdx i ∨
  isFirstIdxFrom (profitCondition p.side p.take_profit_price) m p.startIdx i ∨
  i = m.length - 1

instance (p : Position) (m : List Bar) (i : ℕ) : Decidable (isStopCandidate p m i) := by
  unfold isStopCandidate
  infer_instance

/-- Invariant carried through the admission pass: every per-bar open-position
count is within the limit, and from the current bar `t` onward the counts are
non-increasing (every open interval so far started at or before `t`). -/
def OpenInv (limit t : ℕ) (openPos : List ℕ) : Prop :=
  (∀ i, openPos.getD i 0 ≤ limit) ∧
    ∀ u v, t ≤ u → u ≤ v → openPos.getD v 0 ≤ openPos.getD u 0

/-! ### Concrete scenarios used to settle individual claims -/

/-- A one-bar market whose single bar breaches both thresholds of `tiePos` at
once (low 95 below the stop-loss 98, high 106 above the take-profit 103). -/
def tieMarket : List Bar :=
  [⟨95, 106, 100, 0⟩]

/-- A long position entered at bar 0 with entry 100, stop-loss 98 and
take-profit 103. -/
def tiePos : Position :=
  ⟨Side.long, 0, 100, 1, 98, 103⟩

/-- A market in which `tiePos` loses: bar 1 breaches only the stop-loss
(low 97 below 98, high 100 below 103). -/
def lossMarket : List Bar :=
  [⟨100, 100, 100, 0⟩, ⟨97, 100, 99, 0⟩]

/-- A market in which `tiePos` times out: no bar breaches either threshold,
and the final close is 101. -/
def timeoutMarket : List Bar :=
  [⟨199/2, 201/2, 100, 0⟩, ⟨199/2, 201/2, 101, 0⟩]

/-- A one-bar market with spread 1 in which `spreadPos` times out. -/
def spreadMarket : List Bar :=
  [⟨99/2, 101/2, 50, 1⟩]

/-- A long position of size 1 entered at bar 0 of `spreadMarket` at price 50,
with thresholds 49 and 52 that the market never breaches. -/
def spreadPos : Position :=
  ⟨Side.long, 0, 50, 1, 49, 52⟩

/-- A two-bar market on which the admission pass opens one long position at
bar 0 that times out at the last bar. -/
def demoMarket : List Bar :=
  [⟨19/10, 21/10, 2, 0⟩, ⟨19/10, 21/10, 2, 0⟩]

/-- Parameters with spread 0, 10 per trade, a limit of one position, initial
capital 100 and ten percent thresholds. -/
def demoParams : ManageParams :=
  ⟨0, 10, 1, 100, 1/10, 1/10⟩

/-- A long signal on both bars of `demoMarket`. -/
def demoSignal : List ℤ :=
  [1, 1]

/-- The admission-pass ledger of `demoParams` before any position is open. -/
def demoInit : TimeInfo :=
  ⟨[100, 100], [0, 0]⟩

/-- The position the admission pass opens at bar 0 of `demoMarket` under
`demoParams`, already resolved (times out at bar 1). -/
def demoRp : ResolvedPosition :=
  ⟨⟨Side.long, 0, 2, 5, 9/5, 11/5⟩, 1, 0⟩

/-- An admission-pass ledger too poor to afford one unit at `demoMarket`
prices. -/
def demoPoor : TimeInfo :=
  ⟨[1/2, 1/2], [0, 0]⟩

/-- A one-bar market with close 3 where the Limited sizing formula yields the
fractional size 10/3 under `fracParams`. -/
def fracMarket : List Bar :=
  [⟨29/10, 31/10, 3, 0⟩]

/-- Parameters with spread 0 and 10 per trade, making 10/3 units affordable
at price 3. -/
def fracParams : ManageParams :=
  ⟨0, 10, 1, 100, 1/10, 1/10⟩

/-- A one-bar market with close 10 and spread 1, for the short entry-price
scenario. -/
def shortMarket : List Bar :=
  [⟨102/10, 105/10, 10, 1⟩]

/-- Parameters with spread 1 and 100 per trade; the take-profit fraction 1/11
gives round threshold prices at entry 11. -/
def shortParams : ManageParams :=
  ⟨1, 100, 1, 1000, 1/10, 1/11⟩

/-! ### Lemmas about the first-breach scan -/

theorem predAt_nil (pred : Bar → Bool) (i : ℕ) : predAt pred [] i = false := by
  simp [predAt]

theorem predAt_cons_zero (pred : Bar → Bool) (b : Bar) (l : List Bar) :
    predAt pred (b :: l) 0 = pred b := by
  simp [predAt]

theorem predAt_cons_succ (pred : Bar → Bool) (b : Bar) (l : List Bar) (i : ℕ) :
    predAt pred (b :: l) (i + 1) = predAt pred l i := by
  simp [predAt]

theorem predAt_true_lt (pred : Bar → Bool) (m : List Bar) (i : ℕ)
    (h : predAt pred m i = true) : i < m.length := by
  by_contra hge
  have : m[i]? = none := List.getElem?_eq_none (by omega)
  simp [predAt, this] at h

theorem predAt_drop (pred : Bar → Bool) (m : List Bar) (start j : ℕ) :
    predAt pred (m.drop start) j = predAt pred m (start + j) := by
  simp [predAt, List.getElem?_drop]

theorem firstFrom_eq_some_iff (pred : Bar → Bool) (l : List Bar) :
    ∀ (n i : ℕ),
      firstFrom pred l n = some i ↔
        ∃ k, i = n + k ∧ predAt pred l k = true ∧ ∀ j, j < k → predAt pred l j = false := by
  induction l with
  | nil =>
    intro n i
    simp [firstFrom, predAt_nil]
  | cons b rest ih =>
    intro n i
    by_cases hb : pred b
    · simp only [firstFrom, hb, if_pos]
      constructor
      · intro h
        injection h with h
        subst h
        refine ⟨0, by omega, ?_, ?_⟩
        · rw [predAt_cons_zero, hb]
        · intro j hj
          omega
      · rintro ⟨k, rfl, hk, hmin⟩
        rcases Nat.eq_zero_or_pos k with hk0 | hkpos
        · subst hk0
          simp
        · exfalso
          have h0 := hmin 0 hkpos
          rw [predAt_cons_zero, hb] at h0
          exact absurd h0 (by simp)
    · have hb' : pred b = false := by
        simp [hb]
      simp only [firstFrom, hb', if_neg, Bool.false_eq_true, not_false_eq_true]
      rw [ih (n + 1) i]
      constructor
      · rintro ⟨k, rfl, hk, hmin⟩
        refine ⟨k + 1, by omega, ?_, ?_⟩
        · rw [predAt_cons_succ]
          exact hk
        · intro j hj
          cases j with
          | zero => rw [predAt_cons_zero]; exact hb'
          | succ j' => rw [predAt_cons_succ]; exact hmin j' (by omega)
      · rintro ⟨k, rfl, hk, hmin⟩
        cases k with
        | zero =>
          rw [predAt_cons_zero, hb'] at hk
          exact absurd hk (by simp)
        | succ k' =>
          refine ⟨k', by omega, ?_, ?_⟩
          · rw [predAt_cons_succ] at hk
            exact hk
          · intro j hj
            have := hmin (j + 1) (by omega)
            rw [predAt_cons_succ] at this
            exact this

theorem firstFrom_eq_none_iff (pred : Bar → Bool) (l : List Bar) :
    ∀ n : ℕ, firstFrom pred l n = none ↔ ∀ k, predAt pred l k = false := by
  induction l with
  | nil =>
    intro n
    simp [firstFrom, predAt_nil]
  | cons b rest ih =>
    intro n
    by_cases hb : pred b
    · simp only [firstFrom, hb, if_pos]
      constructor
      · intro h
        exact absurd h (by simp)
      · intro h
        have h0 := h 0
        rw [predAt_cons_zero, hb] at h0
        exact absurd h0 (by simp)
    · have hb' : pred b = false := by simp [hb]
      simp only [firstFrom, hb', Bool.false_eq_true, if_neg, not_false_eq_true]
      rw [ih (n + 1)]
      constructor
      · intro h k
        cases k with
        | zero => rw [predAt_cons_zero]; exact hb'
        | succ k' => rw [predAt_cons_succ]; exact h k'
      · intro h k
        have := h (k + 1)
        rw [predAt_cons_succ] at this
        exact this

theorem firstIdxFrom_eq_some_iff (pred : Bar → Bool) (m : List Bar) (start i : ℕ) :
    firstIdxFrom pred m start = some i ↔ isFirstIdxFrom pred m start i := by
  unfold firstIdxFrom isFirstIdxFrom
  rw [firstFrom_eq_some_iff]
  constructor
  · rintro ⟨k, rfl, hk, hmin⟩
    rw [predAt_drop] at hk
    refine ⟨by omega, predAt_true_lt _ _ _ hk, hk, ?_⟩
    intro j hj hsj
    have := hmin (j - start) (by omega)
    rw [predAt_drop] at this
    have hrw : start + (j - start) = j := by omega
    rw [hrw] at this
    exact this
  · rintro ⟨hle, hlt, hp, hmin⟩
    refine ⟨i - start, by omega, ?_, ?_⟩
    · rw [predAt_drop]
      have hrw : start + (i - start) = i := by omega
      rw [hrw]
      exact hp
    · intro j hj
      rw [predAt_drop]
      exact hmin (start + j) (by omega) (by omega)

theorem firstIdxFrom_eq_none_iff (pred : Bar → Bool) (m : List Bar) (start : ℕ) :
    firstIdxFrom pred m start = none ↔ ∀ i, start ≤ i → predAt pred m i = false := by
  unfold firstIdxFrom
  rw [firstFrom_eq_none_iff]
  constructor
  · intro h i hi
    have := h (i - start)
    rw [predAt_drop] at this
    have hrw : start + (i - start) = i := by omega
    rw [hrw] at this
    exact this
  · intro h k
    rw [predAt_drop]
    exact h (start + k) (by omega)

theorem firstIdxFrom_some_bounds (pred : Bar → Bool) (m : List Bar) (start a : ℕ)
    (h : firstIdxFrom pred m start = some a) : start ≤ a ∧ a < m.length := by
  have := (firstIdxFrom_eq_some_iff pred m start a).mp h
  exact ⟨this.1, this.2.1⟩

/-! ### Lemmas about the stop date and the outcome -/

theorem stop_date_eq (p : Position) (m : List Bar) :
    stop_date p m =
      minDefined (stop_loss_trigger p m) (take_profit_trigger p m) (m.length - 1) :=
  rfl

theorem minDefined_none_none (last : ℕ) : minDefined none none last = last :=
  rfl

theorem minDefined_some_none (a last : ℕ) : minDefined (some a) none last = min a last :=
  rfl

theorem minDefined_none_some (b last : ℕ) : minDefined none (some b) last = min b last :=
  rfl

theorem minDefined_some_some (a b last : ℕ) :
    minDefined (some a) (some b) last = min (min a b) last :=
  rfl

theorem stop_date_le_last (p : Position) (m : List Bar) :
    stop_date p m ≤ m.length - 1 := by
  unfold stop_date minDefined
  rcases stop_loss_trigger p m with _ | a <;> rcases take_profit_trigger p m with _ | b <;>
    simp [Nat.min_le_right]

theorem stop_date_ge_start (p : Position) (m : List Bar)
    (h : p.startIdx ≤ m.length - 1) : p.startIdx ≤ stop_date p m := by
  unfold stop_date minDefined
  rcases hs : stop_loss_trigger p m with _ | a <;>
    rcases hp : take_profit_trigger p m with _ | b
  · exact h
  · have := firstIdxFrom_some_bounds _ _ _ _ hp
    simp only []
    omega
  · have := firstIdxFrom_some_bounds _ _ _ _ hs
    simp only []
    omega
  · have h1 := firstIdxFrom_some_bounds _ _ _ _ hs
    have h2 := firstIdxFrom_some_bounds _ _ _ _ hp
    simp only []
    omega

theorem compute_is_win_eq (slt tpt : Option ℕ) :
    compute_is_win slt tpt =
      match slt, tpt with
      | none, none => some 0
      | some _, none => some (-1)
      | none, some _ => some 1
      | some a, some b =>
        if a < b then some (-1) else if b < a then some 1 else none := by
  rcases slt with _ | a <;> rcases tpt with _ | b
  · rfl
  · rfl
  · rfl
  · simp only [compute_is_win, optLt, Option.isSome_some, Bool.not_true, Bool.false_and,
      Bool.true_and, Bool.false_or, if_false]
    rcases lt_trichotomy a b with hab | hab | hab
    · simp [hab, Nat.lt_asymm hab]
    · simp [hab, lt_irrefl]
    · simp [hab, Nat.lt_asymm hab]

/-! ### Lemmas about interval additions -/

theorem addSeriesAux_length {α : Type} [Add α] (f : ℕ → α) :
    ∀ (n : ℕ) (l : List α), (addSeriesAux f n l).length = l.length := by
  intro n l
  induction l generalizing n with
  | nil => rfl
  | cons c rest ih => simp [addSeriesAux, ih]

theorem addSeriesAux_getElem? {α : Type} [Add α] (f : ℕ → α) :
    ∀ (n i : ℕ) (l : List α),
      (addSeriesAux f n l)[i]? = (l[i]?).map (fun c => c + f (n + i)) := by
  intro n i l
  induction l generalizing n i with
  | nil => simp [addSeriesAux]
  | cons c rest ih =>
    cases i with
    | zero => simp [addSeriesAux]
    | succ i' =>
      simp only [addSeriesAux, List.getElem?_cons_succ, ih (n + 1) i']
      have hrw : n + 1 + i' = n + (i' + 1) := by omega
      rw [hrw]

theorem addSeries_getElem? {α : Type} [Add α] (f : ℕ → α) (l : List α) (i : ℕ) :
    (addSeries f l)[i]? = (l[i]?).map (fun c => c + f i) := by
  unfold addSeries
  rw [addSeriesAux_getElem?]
  simp

theorem addSeries_getD {α : Type} [AddMonoid α] (f : ℕ → α) (l : List α) (i : ℕ) :
    (addSeries f l).getD i 0 = l.getD i 0 + (if i < l.length then f i else 0) := by
  rcases Nat.lt_or_ge i l.length with h | h
  · have hsome : l[i]? = some l[i] := List.getElem?_eq_getElem h
    have := addSeries_getElem? f l i
    rw [hsome] at this
    simp only [Option.map_some'] at this
    rw [List.getD_eq_getElem?_getD, List.getD_eq_getElem?_getD, this, hsome]
    simp [h]
  · have hnone : l[i]? = none := List.getElem?_eq_none h
    have := addSeries_getElem? f l i
    rw [hnone] at this
    simp only [Option.map_none'] at this
    rw [List.getD_eq_getElem?_getD, List.getD_eq_getElem?_getD, this, hnone]
    simp [Nat.not_lt.mpr h]

theorem addSeriesAux_comm {α : Type} [AddCommMonoid α] (f g : ℕ → α) :
    ∀ (n : ℕ) (l : List α),
      addSeriesAux f n (addSeriesAux g n l) = addSeriesAux g n (addSeriesAux f n l) := by
  intro n l
  induction l generalizing n with
  | nil => rfl
  | cons c rest ih =>
    simp only [addSeriesAux, List.cons.injEq]
    exact ⟨add_right_comm c (g n) (f n), ih (n + 1)⟩

theorem addSeries_comm {α : Type} [AddCommMonoid α] (f g : ℕ → α) (l : List α) :
    addSeries f (addSeries g l) = addSeries g (addSeries f l) :=
  addSeriesAux_comm f g 0 l

theorem addSeries_four_comm {α : Type} [AddCommMonoid α] (f1 f2 g1 g2 : ℕ → α) (l : List α) :
    addSeries f1 (addSeries f2 (addSeries g1 (addSeries g2 l))) =
      addSeries g1 (addSeries g2 (addSeries f1 (addSeries f2 l))) := by
  rw [addSeries_comm f2 g1, addSeries_comm f1 g1, addSeries_comm f2 g2, addSeries_comm f1 g2]

theorem update_cash_comm (rp1 rp2 : ResolvedPosition) (cash : List ℚ) :
    update_cash rp1 (update_cash rp2 cash) = update_cash rp2 (update_cash rp1 cash) := by
  simp only [update_cash]
  exact addSeries_four_comm _ _ _ _ cash

/-! ### Lemmas about the admission pass -/

theorem resolve_pos_eq (p : Position) (m : List Bar) (rp : ResolvedPosition)
    (h : resolve p m = some rp) : rp.pos = p ∧ rp.stopIdx = stop_date p m := by
  unfold resolve at h
  split at h
  · exact absurd h (by simp)
  · injection h with h
    subst h
    exact ⟨rfl, rfl⟩

theorem OpenInv.mono (limit t : ℕ) (openPos : List ℕ) (h : OpenInv limit t openPos) :
    OpenInv limit (t + 1) openPos :=
  ⟨h.1, fun u v hu huv => h.2 u v (by omega) huv⟩

theorem open_inv_add_interval (limit t sIdx : ℕ) (openPos : List ℕ)
    (hts : t ≤ sIdx)
    (hgate : openPos.getD t 0 < limit)
    (hinv : OpenInv limit t openPos) :
    OpenInv limit (t + 1)
      (addSeries (fun i => if t ≤ i ∧ i ≤ sIdx then 1 else 0) openPos) := by
  obtain ⟨hbound, hmono⟩ := hinv
  constructor
  · intro i
    rw [addSeries_getD]
    by_cases hlen : i < openPos.length
    · by_cases hint : t ≤ i ∧ i ≤ sIdx
      · have hle : openPos.getD i 0 ≤ openPos.getD t 0 := hmono t i (le_refl t) hint.1
        simp only [hlen, hint, if_pos, and_self]
        omega
      · simp only [hlen, if_pos, hint, if_neg, not_false_eq_true]
        have := hbound i
        omega
    · simp only [hlen, if_neg, not_false_eq_true]
      have := hbound i
      omega
  · intro u v hu huv
    rw [addSeries_getD, addSeries_getD]
    have hmuv : openPos.getD v 0 ≤ openPos.getD u 0 := hmono u v (by omega) huv
    by_cases hvlen : v < openPos.length
    · have hulen : u < openPos.length := by omega
      by_cases hvint : t ≤ v ∧ v ≤ sIdx
      · have huint : t ≤ u ∧ u ≤ sIdx := ⟨by omega, by omega⟩
        simp only [hvlen, hulen, hvint, huint, if_pos, and_self]
        omega
      · simp only [hvlen, hulen, if_pos, hvint, if_neg, not_false_eq_true]
        split
        · omega
        · omega
    · simp only [hvlen, if_neg, not_false_eq_true]
      have hv0 : openPos.getD v 0 = 0 := List.getD_eq_default _ _ (by omega)
      by_cases hulen : u < openPos.length
      · simp only [hulen, if_pos]
        split
        · omega
        · omega
      · simp only [hulen, if_neg, not_false_eq_true]
        omega

theorem manageStep_append_inv (P : ManageParams) (m : List Bar) (s : List ℤ)
    (ti : TimeInfo) (pl : List ResolvedPosition) (d : ℕ) (ti2 : TimeInfo)
    (rp : ResolvedPosition)
    (h : manageStep P m s (some (ti, pl)) d = some (ti2, pl ++ [rp])) :
    s.getD d 0 ≠ 0 ∧
    ti.open_positions.getD d 0 < P.limit_of_positions ∧
    rp.pos = ⟨if s.getD d 0 > 0 then Side.long else Side.short, d,
      closeAt m d + P.spread,
      min ((P.max_cap_per_trade - P.spread) / (closeAt m d + P.spread))
        ((ti.cash.getD d 0 - P.spread) / (closeAt m d + P.spread)),
      (get_loss_profit_price (if s.getD d 0 > 0 then Side.long else Side.short)
        (closeAt m d + P.spread) P.stop_loss P.take_profit).1,
      (get_loss_profit_price (if s.getD d 0 > 0 then Side.long else Side.short)
        (closeAt m d + P.spread) P.stop_loss P.take_profit).2⟩ ∧
    1 ≤ rp.pos.size ∧
    ¬ (ti.cash.getD d 0 < rp.pos.size * (closeAt m d + P.spread) + P.spread) ∧
    rp.stopIdx = stop_date rp.pos m ∧
    ti2 = ⟨update_cash rp ti.cash, add_total_position_to_dataframe rp ti.open_positions⟩ := by
  have hne : ¬ ((ti, pl) = (ti2, pl ++ [rp])) := by
    intro hcontra
    have h2 := congrArg (fun q => q.2.length) hcontra
    simp at h2
  simp only [manageStep] at h
  split at h
  · exact absurd (Option.some.inj h) hne
  · next hcond =>
    push_neg at hcond
    split at h
    · exact absurd (Option.some.inj h) hne
    · next hunits =>
      split at h
      · exact absurd (Option.some.inj h) hne
      · next hcost =>
        split at h
        · exact absurd h (by simp)
        · next rp0 hres =>
          have hinj := Option.some.inj h
          have hti2 : ti2 = _ := (Prod.mk.injEq _ _ _ _ ▸ hinj).1.symm
          have hpl : pl ++ [rp0] = pl ++ [rp] := (Prod.mk.injEq _ _ _ _ ▸ hinj).2
          have hrp : rp0 = rp := by
            have := List.append_cancel_left hpl
            injection this
          subst hrp
          obtain ⟨hpos, hstop⟩ := resolve_pos_eq _ _ _ hres
          refine ⟨hcond.1, hcond.2, hpos, ?_, ?_, by rw [hstop, hpos], ?_⟩
          · rw [hpos]
            exact le_of_not_lt hunits
          · rw [hpos]
            exact hcost
          · rw [hti2]

theorem manageStep_open_inv (P : ManageParams) (m : List Bar) (s : List ℤ)
    (ti : TimeInfo) (pl : List ResolvedPosition) (t : ℕ)
    (st2 : TimeInfo × List ResolvedPosition)
    (h : manageStep P m s (some (ti, pl)) t = some st2)
    (ht : t < m.length)
    (hinv : OpenInv P.limit_of_positions t ti.open_positions) :
    OpenInv P.limit_of_positions (t + 1) st2.1.open_positions := by
  simp only [manageStep] at h
  split at h
  · obtain rfl := Option.some.inj h
    exact OpenInv.mono _ _ _ hinv
  · next hcond =>
    push_neg at hcond
    split at h
    · obtain rfl := Option.some.inj h
      exact OpenInv.mono _ _ _ hinv
    · split at h
      · obtain rfl := Option.some.inj h
        exact OpenInv.mono _ _ _ hinv
      · split at h
        · exact absurd h (by simp)
        · next rp0 hres =>
          obtain rfl := Option.some.inj h
          obtain ⟨hpos, hstop⟩ := resolve_pos_eq _ _ _ hres
          have hstart : rp0.pos.startIdx = t := by
            rw [hpos]
          have hts : t ≤ rp0.stopIdx := by
            rw [hstop, ← hpos]
            have h2 := stop_date_ge_start rp0.pos m (by rw [hstart]; omega)
            omega
          simp only [add_total_position_to_dataframe]
          rw [hstart]
          exact open_inv_add_interval _ t rp0.stopIdx _ hts hcond.2 hinv

theorem manage_prefix_inv (P : ManageParams) (m : List Bar) (s : List ℤ) :
    ∀ n, n ≤ m.length →
      ∀ st2, (List.range n).foldl (manageStep P m s)
          (some (⟨List.replicate m.length P.initial_capital,
                  List.replicate m.length 0⟩, [])) = some st2 →
        OpenInv P.limit_of_positions n st2.1.open_positions := by
  intro n
  induction n with
  | zero =>
    intro _ st2 h
    simp only [List.range_zero, List.foldl_nil] at h
    obtain rfl := Option.some.inj h
    constructor
    · intro i
      rcases Nat.lt_or_ge i m.length with hi | hi
      · simp [List.getD_eq_getElem?_getD, List.getElem?_replicate, hi]
      · simp [List.getD_eq_default, List.length_replicate, hi]
    · intro u v _ _
      rcases Nat.lt_or_ge v m.length with hv | hv
      · have hu : u < m.length := by omega
        simp [List.getD_eq_getElem?_getD, List.getElem?_replicate, hv, hu]
      · simp [List.getD_eq_default, List.length_replicate, hv]
  | succ n ih =>
    intro hn st2 h
    rw [List.range_succ, List.foldl_append, List.foldl_cons, List.foldl_nil] at h
    rcases hprev : (List.range n).foldl (manageStep P m s)
        (some (⟨List.replicate m.length P.initial_capital,
                List.replicate m.length 0⟩, [])) with _ | st1
    · rw [hprev] at h
      exact absurd h (by simp [manageStep])
    · rw [hprev] at h
      obtain ⟨ti1, pl1⟩ := st1
      exact manageStep_open_inv P m s ti1 pl1 n st2 h (by omega)
        (ih (by omega) (ti1, pl1) hprev)

/-! ### Claim C1 -/

/-- Counterexample to claim C1 as stated: on `tieMarket` both the stop-loss
and the take-profit of `tiePos` are first breached on the very same bar 0,
and `compute_is_win` leaves the outcome unset (`none`) instead of assigning
the loss outcome `some (-1)`; resolution therefore does not always assign a
defined outcome. -/
theorem c1_tie_counterexample :
    stop_loss_trigger tiePos tieMarket = some 0 ∧
    take_profit_trigger tiePos tieMarket = some 0 ∧
    is_win tiePos tieMarket = none ∧
    is_win tiePos tieMarket ≠ some (-1) := by
  decide

/-- Claim C1 (amended): when the stop-loss and the take-profit are first
breached on the same bar, `compute_is_win` assigns no outcome (the `is_win`
attribute stays unset); in every other case the outcome is defined: timeout
(0) when neither threshold is ever breached, loss (-1) when the stop-loss is
breached strictly first or alone, win (+1) when the take-profit is breached
strictly first or alone. -/
theorem c1_is_win_amended (p : Position) (m : List Bar) :
    is_win p m =
      match stop_loss_trigger p m, take_profit_trigger p m with
      | none, none => some 0
      | some _, none => some (-1)
      | none, some _ => some 1
      | some a, some b =>
        if a < b then some (-1) else if b < a then some 1 else none :=
  compute_is_win_eq (stop_loss_trigger p m) (take_profit_trigger p m)

/-! ### Claim C2 -/

/-- Claim C2 is violated by the code (the exit-price methods are documented
placeholders): evaluating the code at a losing long position (`tiePos` on
`lossMarket`, stop-loss breached first at bar 1) yields the take-profit
price 103 instead of the stop-loss price 98, and at a timed-out long
position (`tiePos` on `timeoutMarket`) yields the stop-loss price 98 instead
of the close 101 of the last bar. -/
theorem c2_exit_price_code_eval :
    (resolve tiePos lossMarket).map (fun rp => (rp.isWin, exitPrice rp)) =
      some (-1, tiePos.take_profit_price) ∧
    tiePos.take_profit_price ≠ tiePos.stop_loss_price ∧
    (resolve tiePos timeoutMarket).map (fun rp => (rp.isWin, exitPrice rp)) =
      some (0, tiePos.stop_loss_price) ∧
    tiePos.stop_loss_price ≠ closeAt timeoutMarket (timeoutMarket.length - 1) := by
  decide

/-! ### Claim C3 -/

/-- Claim C3: against a non-empty market the stop index never exceeds the
last bar index, and it is the earliest among the first stop-loss breach
index, the first take-profit breach index and the last bar index, with the
breach conditions of `stopCondition` and `profitCondition`. -/
theorem c3_stop_date_earliest (p : Position) (m : List Bar) (hm : m ≠ []) :
    stop_date p m ≤ m.length - 1 ∧
    isStopCandidate p m (stop_date p m) ∧
    ∀ i, isStopCandidate p m i → stop_date p m ≤ i := by
  have hlen : 1 ≤ m.length := List.length_pos.mpr hm
  refine ⟨stop_date_le_last p m, ?_, ?_⟩
  · unfold isStopCandidate
    rcases hs : stop_loss_trigger p m with _ | a <;>
      rcases hp : take_profit_trigger p m with _ | b
    · rw [stop_date_eq, hs, hp, minDefined_none_none]
      right; right; rfl
    · have hb := firstIdxFrom_some_bounds _ _ _ _ hp
      rw [stop_date_eq, hs, hp, minDefined_none_some]
      have hmin : min b (m.length - 1) = b := by omega
      rw [hmin]
      right; left
      exact (firstIdxFrom_eq_some_iff _ _ _ _).mp hp
    · have ha := firstIdxFrom_some_bounds _ _ _ _ hs
      rw [stop_date_eq, hs, hp, minDefined_some_none]
      have hmin : min a (m.length - 1) = a := by omega
      rw [hmin]
      left
      exact (firstIdxFrom_eq_some_iff _ _ _ _).mp hs
    · have ha := firstIdxFrom_some_bounds _ _ _ _ hs
      have hb := firstIdxFrom_some_bounds _ _ _ _ hp
      rw [stop_date_eq, hs, hp, minDefined_some_some]
      rcases le_total a b with hab | hab
      · have hmin : min (min a b) (m.length - 1) = a := by omega
        rw [hmin]
        left
        exact (firstIdxFrom_eq_some_iff _ _ _ _).mp hs
      · have hmin : min (min a b) (m.length - 1) = b := by omega
        rw [hmin]
        right; left
        exact (firstIdxFrom_eq_some_iff _ _ _ _).mp hp
  · intro i hi
    rcases hi with hi | hi | hi
    · have heq : stop_loss_trigger p m = some i :=
        (firstIdxFrom_eq_some_iff _ _ _ _).mpr hi
      rw [stop_date_eq, heq]
      rcases take_profit_trigger p m with _ | b
      · rw [minDefined_some_none]
        omega
      · rw [minDefined_some_some]
        omega
    · have heq : take_profit_trigger p m = some i :=
        (firstIdxFrom_eq_some_iff _ _ _ _).mpr hi
      rw [stop_date_eq, heq]
      rcases stop_loss_trigger p m with _ | a
      · rw [minDefined_none_some]
        omega
      · rw [minDefined_some_some]
        omega
    · subst hi
      exact stop_date_le_last p m

/-- Witness for C3 on a concrete market: the two-bar `lossMarket` with the
long position `tiePos`. -/
theorem c3_witness :
    stop_date tiePos lossMarket ≤ lossMarket.length - 1 ∧
    isStopCandidate tiePos lossMarket (stop_date tiePos lossMarket) := by
  have h := c3_stop_date_earliest tiePos lossMarket (by decide)
  exact ⟨h.1, h.2.1⟩

/-! ### Claim C4 -/

/-- Counterexample to claim C4 as stated: at the single bar of `fracMarket`
(close 3, spread 0, per-trade cap 10, ample cash) the admitted size is the
unfloored quotient 10/3, not the floored value 3 =
floor(min(max_cap_per_trade - spread, cash - spread) / entry_price) the claim
prescribes. -/
theorem c4_no_floor_counterexample :
    (manageStep fracParams fracMarket [1] (some (⟨[100], [0]⟩, [])) 0).map
        (fun st => st.2.map (fun rp => rp.pos.size)) = some [10/3] ∧
    (10 : ℚ) / 3 ≠ 3 := by
  decide

/-- Claim C4 (amended): under the Limited policy the candidate size of every
admitted position equals min(max_cap_per_trade - spread, cash_at(bar) -
spread) / entry_price with no floor applied, the admitted size is at least 1
and its cost does not exceed the available cash; and when the candidate size
is below 1 or the cost exceeds the available cash the bar is skipped
non-fatally (the state is returned unchanged). -/
theorem c4_limited_size_amended :
    (∀ (P : ManageParams) (m : List Bar) (s : List ℤ) (ti : TimeInfo)
        (pl : List ResolvedPosition) (d : ℕ) (ti2 : TimeInfo) (rp : ResolvedPosition),
      manageStep P m s (some (ti, pl)) d = some (ti2, pl ++ [rp]) →
        rp.pos.size =
          min ((P.max_cap_per_trade - P.spread) / (closeAt m d + P.spread))
            ((ti.cash.getD d 0 - P.spread) / (closeAt m d + P.spread)) ∧
        1 ≤ rp.pos.size ∧
        ¬ ti.cash.getD d 0 < rp.pos.size * (closeAt m d + P.spread) + P.spread) ∧
    (∀ (P : ManageParams) (m : List Bar) (s : List ℤ) (ti : TimeInfo)
        (pl : List ResolvedPosition) (d : ℕ),
      s.getD d 0 ≠ 0 →
      ti.open_positions.getD d 0 < P.limit_of_positions →
      (min ((P.max_cap_per_trade - P.spread) / (closeAt m d + P.spread))
          ((ti.cash.getD d 0 - P.spread) / (closeAt m d + P.spread)) < 1 ∨
        ti.cash.getD d 0 <
          min ((P.max_cap_per_trade - P.spread) / (closeAt m d + P.spread))
            ((ti.cash.getD d 0 - P.spread) / (closeAt m d + P.spread)) *
            (closeAt m d + P.spread) + P.spread) →
      manageStep P m s (some (ti, pl)) d = some (ti, pl)) := by
  constructor
  · intro P m s ti pl d ti2 rp h
    obtain ⟨hsig, hlim, hpos, hsize, hcost, hstop, hti2⟩ :=
      manageStep_append_inv P m s ti pl d ti2 rp h
    refine ⟨?_, hsize, hcost⟩
    rw [hpos]
  · intro P m s ti pl d hsig hlimit hskip
    simp only [manageStep]
    rw [if_neg (not_or.mpr ⟨hsig, Nat.not_le.mpr hlimit⟩)]
    rcases hskip with hu | hc
    · rw [if_pos hu]
    · by_cases hu : min ((P.max_cap_per_trade - P.spread) / (closeAt m d + P.spread))
          ((ti.cash.getD d 0 - P.spread) / (closeAt m d + P.spread)) < 1
      · rw [if_pos hu]
      · rw [if_neg hu, if_pos hc]

/-- Witness for C4 on concrete inputs: the position admitted at bar 0 of
`demoMarket` has size min((10-0)/2, (100-0)/2) = 5, and the same bar is
skipped non-fatally when the available cash is only 1/2. -/
theorem c4_witness :
    demoRp.pos.size =
      min ((demoParams.max_cap_per_trade - demoParams.spread) /
          (closeAt demoMarket 0 + demoParams.spread))
        ((demoInit.cash.getD 0 0 - demoParams.spread) /
          (closeAt demoMarket 0 + demoParams.spread)) ∧
    manageStep demoParams demoMarket demoSignal (some (demoPoor, [])) 0 =
      some (demoPoor, []) :=
  ⟨(c4_limited_size_amended.1 demoParams demoMarket demoSignal demoInit [] 0
      ⟨[90, 90], [1, 1]⟩ demoRp (by decide)).1,
    c4_limited_size_amended.2 demoParams demoMarket demoSignal demoPoor [] 0
      (by decide) (by decide) (Or.inl (by decide))⟩

/-! ### Claim C5 -/

/-- Counterexample to claim C5 as stated: on `shortMarket` (close 10,
spread 1) a short signal opens a position with entry price
close + spread = 11, not close - spread = 9 as the claim prescribes for a
short. -/
theorem c5_short_spread_counterexample :
    (unlimitedOpen shortParams shortMarket (-1) 0).map (fun p => (p.side, p.entry_price)) =
      some (Side.short, 11) ∧
    (11 : ℚ) ≠ closeAt shortMarket 0 - shortParams.spread := by
  decide

/-- Claim C5 (amended): every opened position has entry price
close[bar] + spread regardless of the signal side, under both the Limited and
the Unlimited capital-management variants. -/
theorem c5_entry_price_amended :
    (∀ (P : ManageParams) (m : List Bar) (s : List ℤ) (ti : TimeInfo)
        (pl : List ResolvedPosition) (d : ℕ) (ti2 : TimeInfo) (rp : ResolvedPosition),
      manageStep P m s (some (ti, pl)) d = some (ti2, pl ++ [rp]) →
        rp.pos.entry_price = closeAt m d + P.spread) ∧
    (∀ (P : ManageParams) (m : List Bar) (sd : ℤ) (d : ℕ) (p : Position),
      unlimitedOpen P m sd d = some p → p.entry_price = closeAt m d + P.spread) := by
  constructor
  · intro P m s ti pl d ti2 rp h
    obtain ⟨hsig, hlim, hpos, hsize, hcost, hstop, hti2⟩ :=
      manageStep_append_inv P m s ti pl d ti2 rp h
    rw [hpos]
  · intro P m sd d p h
    simp only [unlimitedOpen] at h
    split at h
    · split at h
      · exact absurd h (by simp)
      · injection h with h
        subst h
        rfl
    · exact absurd h (by simp)

/-- Witness for C5: the long position admitted at bar 0 of `demoMarket` and
the position opened by the Unlimited variant at the same bar both carry entry
price close + spread = 2. -/
theorem c5_witness :
    demoRp.pos.entry_price = closeAt demoMarket 0 + demoParams.spread ∧
    (⟨Side.long, 0, 2, 5, 9/5, 11/5⟩ : Position).entry_price =
      closeAt demoMarket 0 + demoParams.spread :=
  ⟨c5_entry_price_amended.1 demoParams demoMarket demoSignal demoInit [] 0
      ⟨[90, 90], [1, 1]⟩ demoRp (by decide),
    c5_entry_price_amended.2 demoParams demoMarket 1 0
      ⟨Side.long, 0, 2, 5, 9/5, 11/5⟩ (by decide)⟩

/-! ### Claim C6 -/

/-- Counterexample to claim C6 as stated: resolving `spreadPos` on
`spreadMarket` (whose entry bar has spread 1) and applying `update_cash` to
the one-bar cash ledger [100] debits only entry_price * size = 50, leaving
50, whereas the claim prescribes the debit entry_price * size + spread,
which would leave 49. -/
theorem c6_spread_counterexample :
    (resolve spreadPos spreadMarket).map (fun rp => update_cash rp [100]) = some [50] ∧
    (50 : ℚ) ≠ 100 - (spreadPos.entry_price * spreadPos.size + 1) := by
  decide

/-- Claim C6 (amended): `update_cash` debits exactly entry_price * size (the
spread is not part of the per-bar debit) at every bar from the start index
onward, credits exit_price * size at every bar from stop index + 1 onward
and never at the stop index itself, and leaves bars before the start index
unchanged. -/
theorem c6_update_cash_amended (rp : ResolvedPosition) (cash : List ℚ) (i : ℕ) :
    (update_cash rp cash)[i]? =
      (cash[i]?).map (fun c =>
        c - (if rp.pos.startIdx ≤ i then rp.pos.entry_price * rp.pos.size else 0)
          + (if rp.stopIdx + 1 ≤ i then exitPrice rp * rp.pos.size else 0)) := by
  simp only [update_cash, addSeries_getElem?, Option.map_map]
  cases hc : cash[i]?
  · simp
  · simp only [Option.map_some', Function.comp_apply]
    congr 1
    split_ifs <;> ring

/-! ### Claim C7 -/

/-- Claim C7: whenever the Limited admission pass completes, the per-bar
open-position count never exceeds the configured (finite) limit at any bar. -/
theorem c7_limit_invariant (P : ManageParams) (market : List Bar) (signal : List ℤ)
    (st : TimeInfo × List ResolvedPosition)
    (h : manage P market signal = some st) :
    ∀ i, st.1.open_positions.getD i 0 ≤ P.limit_of_positions :=
  (manage_prefix_inv P market signal market.length (le_refl market.length) st h).1

/-- Witness for C7: the completed run of the admission pass on `demoMarket`
with limit 1, whose open-position counts are [1, 1]. -/
theorem c7_witness :
    ((⟨⟨[90, 90], [1, 1]⟩, [demoRp]⟩ :
        TimeInfo × List ResolvedPosition)).1.open_positions.getD 0 0 ≤
      demoParams.limit_of_positions :=
  c7_limit_invariant demoParams demoMarket demoSignal
    (⟨⟨[90, 90], [1, 1]⟩, [demoRp]⟩) (by decide) 0

/-! ### Claim C8 -/

/-- Claim C8: the ledger contributions of any two resolved positions
commute: applying them in either order yields the same portfolio ledger. -/
theorem c8_contribute_comm (rp1 rp2 : ResolvedPosition) (m : List Bar) (L : Ledger) :
    update_portfolio_dataframe rp1 m (update_portfolio_dataframe rp2 m L) =
      update_portfolio_dataframe rp2 m (update_portfolio_dataframe rp1 m L) := by
  simp only [update_portfolio_dataframe, add_units_to_dataframe, add_holding_to_dataframe,
    add_position_to_dataframe, Ledger.mk.injEq]
  refine ⟨addSeries_comm _ _ _, addSeries_comm _ _ _, ?_, ?_,
    update_cash_comm rp1 rp2 L.cash⟩
  · by_cases h1 : rp1.pos.side = Side.long <;> by_cases h2 : rp2.pos.side = Side.long <;>
      simp [h1, h2] <;> exact addSeries_comm _ _ _
  · by_cases h1 : rp1.pos.side = Side.short <;> by_cases h2 : rp2.pos.side = Side.short <;>
      simp [h1, h2] <;> exact addSeries_comm _ _ _

/-! ### Claim C9 -/

/-- Counterexample to claim C9 as stated: the constant-zero returns series
has zero standard deviation, and the unguarded Sharpe computation evaluates
to NaN (0/0), not to a defined sentinel 0 or positive infinity. -/
theorem c9_sharpe_nan_counterexample :
    seriesVar [0, 0] = 0 ∧ sharpe_ratio [0, 0] = SharpeOutcome.nan := by
  decide

/-- Claim C9 (amended): with at least two returns and zero variance, the
Sharpe computation yields NaN when the mean is zero and a signed infinity
otherwise (there is no defined-sentinel guard); the win-loss ratio with zero
losing bars does evaluate to positive infinity.  Neither computation
raises. -/
theorem c9_sentinel_amended :
    (∀ l : List ℚ, 2 ≤ l.length → seriesVar l = 0 →
      sharpe_ratio l =
        if seriesMean l = 0 then SharpeOutcome.nan
        else if seriesMean l > 0 then SharpeOutcome.posInf else SharpeOutcome.negInf) ∧
    (∀ l : List ℚ, (l.filter (fun r => decide (r < 0))).length = 0 →
      win_loss_ratio l = RatioOutcome.posInf) := by
  constructor
  · intro l hlen hvar
    simp only [sharpe_ratio]
    rw [if_neg (by omega), if_pos hvar]
  · intro l hl
    simp only [win_loss_ratio]
    rw [if_neg (by simp [hl])]

/-- Witness for C9: the constant series [1/2, 1/2] has zero variance and a
positive mean, so Sharpe evaluates to positive infinity, and having no
negative entry its win-loss ratio is positive infinity. -/
theorem c9_witness :
    sharpe_ratio [1/2, 1/2] = SharpeOutcome.posInf ∧
    win_loss_ratio [1/2, 1/2] = RatioOutcome.posInf := by
  constructor
  · have h1 := c9_sentinel_amended.1 [1/2, 1/2] (by decide) (by decide)
    rw [h1]
    decide
  · exact c9_sentinel_amended.2 [1/2, 1/2] (by decide)

/-! ### Claim C10 -/

/-- Claim C10: the Direct exit-level computation uses one common adjustment
for both levels: for a long both offsets from the entry price equal
entry_price * stop_loss and the configured take-profit fraction is ignored;
for a short both offsets equal entry_price * take_profit and the configured
stop-loss fraction is ignored. -/
theorem c10_direct_levels (entry sl tp : ℚ) (hsl : 0 < sl) (htp : 0 < tp) :
    get_loss_profit_price Side.long entry sl tp =
      (entry - entry * sl, entry + entry * sl) ∧
    get_loss_profit_price Side.short entry sl tp =
      (entry + entry * tp, entry - entry * tp) ∧
    (∀ tp2 : ℚ, get_loss_profit_price Side.long entry sl tp2 =
      get_loss_profit_price Side.long entry sl tp) ∧
    (∀ sl2 : ℚ, get_loss_profit_price Side.short entry sl2 tp =
      get_loss_profit_price Side.short entry sl tp) := by
  refine ⟨?_, ?_, fun tp2 => ?_, fun sl2 => ?_⟩ <;> simp [get_loss_profit_price]

/-- Witness for C10 at entry 100, stop-loss 1/100 and take-profit 2/100:
the long levels are (99, 101), both one unit away from the entry, and the
short levels are (102, 98), both two units away. -/
theorem c10_witness :
    get_loss_profit_price Side.long 100 (1/100) (2/100) = (99, 101) ∧
    get_loss_profit_price Side.short 100 (1/100) (2/100) = (102, 98) := by
  have h := c10_direct_levels 100 (1/100) (2/100) (by norm_num) (by norm_num)
  constructor
  · rw [h.1]
    norm_num
  · rw [h.2.1]
    norm_num

end TradeTide
